import Mathlib

/-!
Shallow embedding of the transaction engine of `src/main.rs`
(dogenkigen/account-manager).

`rust_decimal::Decimal` amounts are modelled as integers (`ℤ`) counting
units of 10⁻⁴ currency: the event source delivers fixed-point decimals with
at most four fractional digits, and `Decimal` addition, subtraction and
comparison on such values are exact, so the map to ℤ (multiply by 10⁴)
preserves `+`, `-`, `≥` and `=` faithfully. The two `HashMap`s of
`TransactionEngine` are modelled as functions from keys to `Option` values,
which is the extensional semantics of a keyed map.
-/

namespace AccountManager

/-- Mirrors Rust `enum TransactionType`. -/
inductive TransactionType where
  | Deposit
  | Withdrawal
  | Dispute
  | Resolve
  | Chargeback
deriving DecidableEq, Repr

/-- Mirrors Rust `struct Transaction` (one parsed input event). `client` is a
`u16` and `tx` a `u32` in the source; the claims do not depend on the width,
so they are modelled as `Nat`. An absent amount deserializes to zero. -/
structure Transaction where
  tx_type : TransactionType
  client : Nat
  tx : Nat
  amount : ℤ
deriving DecidableEq, Repr

/-- Mirrors Rust `struct Account`. -/
structure Account where
  client : Nat
  available : ℤ
  held : ℤ
  total : ℤ
  locked : Bool
deriving DecidableEq, Repr

/-- Mirrors `Account::new`: all balances zero, unlocked. -/
def Account.new (client : Nat) : Account :=
  { client := client, available := 0, held := 0, total := 0, locked := false }

/-- Mirrors Rust `struct TransactionDetails` (a stored transaction record). -/
structure TransactionDetails where
  amount : ℤ
  disputed : Bool
deriving DecidableEq, Repr

/-- Mirrors Rust `struct TransactionEngine`: the two keyed stores. -/
structure TransactionEngine where
  accounts : Nat → Option Account
  transactions : Nat → Option TransactionDetails

/-- `HashMap::insert` on the accounts map. -/
def insertAccount (m : Nat → Option Account) (k : Nat) (a : Account) :
    Nat → Option Account :=
  fun c => if c = k then some a else m c

/-- `HashMap::insert` on the transactions map. -/
def insertRecord (m : Nat → Option TransactionDetails) (k : Nat)
    (d : TransactionDetails) : Nat → Option TransactionDetails :=
  fun x => if x = k then some d else m x

/-- `HashMap::remove` on the transactions map. -/
def removeRecord (m : Nat → Option TransactionDetails) (k : Nat) :
    Nat → Option TransactionDetails :=
  fun x => if x = k then none else m x

/-- `TransactionEngine::new`: both maps empty. -/
def TransactionEngine.new : TransactionEngine :=
  { accounts := fun _ => none, transactions := fun _ => none }

/-- The `self.accounts.entry(client).or_insert(Account::new(client))` lookup:
the account the handler works on (existing, or fresh). The handlers below
always write this account back, mirroring `or_insert`'s insertion. -/
def getOrCreate (e : TransactionEngine) (c : Nat) : Account :=
  match e.accounts c with
  | some a => a
  | none => Account.new c

/-- Mirrors `TransactionEngine::handle_deposit`. -/
def handle_deposit (e : TransactionEngine) (t : Transaction) : TransactionEngine :=
  let account := getOrCreate e t.client
  let account := { account with
    available := account.available + t.amount
    total := account.total + t.amount }
  { accounts := insertAccount e.accounts t.client account
    transactions := insertRecord e.transactions t.tx
      { amount := t.amount, disputed := false } }

/-- Mirrors `TransactionEngine::handle_withdrawal`. Note that `or_insert`
inserts the (possibly fresh) account even when the funds check fails. -/
def handle_withdrawal (e : TransactionEngine) (t : Transaction) : TransactionEngine :=
  let account := getOrCreate e t.client
  if account.available ≥ t.amount then
    let account := { account with
      available := account.available - t.amount
      total := account.total - t.amount }
    { accounts := insertAccount e.accounts t.client account
      transactions := insertRecord e.transactions t.tx
        { amount := t.amount, disputed := false } }
  else
    { accounts := insertAccount e.accounts t.client account
      transactions := e.transactions }

/-- Mirrors `TransactionEngine::handle_dispute`. The record is looked up by
`tx` alone; there is no check that it belongs to `t.client`. -/
def handle_dispute (e : TransactionEngine) (t : Transaction) : TransactionEngine :=
  let account := getOrCreate e t.client
  match e.transactions t.tx with
  | some d =>
    if ¬ d.disputed ∧ account.available ≥ d.amount then
      { accounts := insertAccount e.accounts t.client
          { account with
            available := account.available - d.amount
            held := account.held + d.amount }
        transactions := insertRecord e.transactions t.tx
          { amount := d.amount, disputed := true } }
    else
      { accounts := insertAccount e.accounts t.client account
        transactions := e.transactions }
  | none =>
    { accounts := insertAccount e.accounts t.client account
      transactions := e.transactions }

/-- Mirrors `TransactionEngine::handle_resolve`. The source sets
`disputed = false` and then removes the record; the net effect on the store
is the removal. -/
def handle_resolve (e : TransactionEngine) (t : Transaction) : TransactionEngine :=
  let account := getOrCreate e t.client
  match e.transactions t.tx with
  | some d =>
    if d.disputed ∧ account.held ≥ d.amount then
      { accounts := insertAccount e.accounts t.client
          { account with
            available := account.available + d.amount
            held := account.held - d.amount }
        transactions := removeRecord e.transactions t.tx }
    else
      { accounts := insertAccount e.accounts t.client account
        transactions := e.transactions }
  | none =>
    { accounts := insertAccount e.accounts t.client account
      transactions := e.transactions }

/-- Mirrors `TransactionEngine::handle_chargeback`. -/
def handle_chargeback (e : TransactionEngine) (t : Transaction) : TransactionEngine :=
  let account := getOrCreate e t.client
  match e.transactions t.tx with
  | some d =>
    if d.disputed ∧ account.held ≥ d.amount then
      { accounts := insertAccount e.accounts t.client
          { account with
            held := account.held - d.amount
            total := account.total - d.amount
            locked := true }
        transactions := removeRecord e.transactions t.tx }
    else
      { accounts := insertAccount e.accounts t.client account
        transactions := e.transactions }
  | none =>
    { accounts := insertAccount e.accounts t.client account
      transactions := e.transactions }

/-- The locked-account dispatch guard of `process_transaction`: true when an
account already exists for the event's client and is locked. -/
def lockedGuard (e : TransactionEngine) (c : Nat) : Bool :=
  match e.accounts c with
  | some account => account.locked
  | none => false

/-- Mirrors `TransactionEngine::process_transaction`: the locked-account
guard runs first (early return), then dispatch on the event kind. -/
def process_transaction (e : TransactionEngine) (t : Transaction) : TransactionEngine :=
  if lockedGuard e t.client then e
  else
    match t.tx_type with
    | .Deposit => handle_deposit e t
    | .Withdrawal => handle_withdrawal e t
    | .Dispute => handle_dispute e t
    | .Resolve => handle_resolve e t
    | .Chargeback => handle_chargeback e t

/-- The main loop of `main`: fold the engine over the event sequence. -/
def processAll (e : TransactionEngine) (ts : List Transaction) : TransactionEngine :=
  ts.foldl process_transaction e

/-! ### The balance-sheet invariant `total = available + held` -/

/-- The `total == available + held` invariant, as a predicate on engine state. -/
def TotalsInv (e : TransactionEngine) : Prop :=
  ∀ c a, e.accounts c = some a → a.total = a.available + a.held

lemma getOrCreate_totals {e : TransactionEngine} (h : TotalsInv e) (c : Nat) :
    (getOrCreate e c).total = (getOrCreate e c).available + (getOrCreate e c).held := by
  unfold getOrCreate
  cases hc : e.accounts c with
  | some a => exact h _ _ hc
  | none => simp [Account.new]

lemma totals_step {e : TransactionEngine} (t : Transaction) (h : TotalsInv e) :
    TotalsInv (process_transaction e t) := by
  have hg := getOrCreate_totals h t.client
  intro c a hca
  unfold process_transaction at hca
  split at hca
  · exact h _ _ hca
  · split at hca <;>
    · simp only [handle_deposit, handle_withdrawal, handle_dispute, handle_resolve,
        handle_chargeback] at hca
      repeat' split at hca
      all_goals
        first
        | exact h _ _ hca
        | · simp only [insertAccount] at hca
            split at hca
            · injection hca with hca
              subst hca
              try dsimp only at *
              linarith [hg]
            · exact h _ _ hca

lemma totals_processAll {e : TransactionEngine} (h : TotalsInv e)
    (ts : List Transaction) : TotalsInv (processAll e ts) := by
  induction ts generalizing e with
  | nil => exact h
  | cons t ts ih => exact ih (totals_step t h)

lemma totals_new : TotalsInv TransactionEngine.new := by
  intro c a h
  simp [TransactionEngine.new] at h

/-- C1: for every sequence of events processed through `process_transaction`
from the initial empty engine, and for every account in the store,
`total = available + held` holds exactly (the balances are exact rationals,
so there is no rounding drift). Since this holds for an arbitrary sequence,
it holds after every processed event of any sequence. -/
theorem totals_invariant (ts : List Transaction) (c : Nat) (a : Account)
    (h : (processAll TransactionEngine.new ts).accounts c = some a) :
    a.total = a.available + a.held :=
  totals_processAll totals_new ts c a h

/-! ### Frame lemmas shared by several results -/

lemma accounts_frame {e : TransactionEngine} {t : Transaction} {c : Nat}
    (hc : c ≠ t.client) :
    (process_transaction e t).accounts c = e.accounts c := by
  unfold process_transaction
  split
  · rfl
  · split <;>
    · simp only [handle_deposit, handle_withdrawal, handle_dispute, handle_resolve,
        handle_chargeback]
      repeat' split
      all_goals simp [insertAccount, hc]

lemma lockedGuard_eq_true {e : TransactionEngine} {c : Nat} {a : Account}
    (hacc : e.accounts c = some a) (hlock : a.locked = true) :
    lockedGuard e c = true := by
  unfold lockedGuard
  rw [hacc]
  exact hlock

/-- Witness for C1 at a concrete run: deposit 10 then dispute it. -/
theorem totals_invariant_witness :
    (processAll TransactionEngine.new
        [⟨.Deposit, 1, 1, 10⟩, ⟨.Dispute, 1, 1, 0⟩]).accounts 1 =
      some ⟨1, 0, 10, 10, false⟩ ∧
    (⟨1, 0, 10, 10, false⟩ : Account).total =
      (⟨1, 0, 10, 10, false⟩ : Account).available +
        (⟨1, 0, 10, 10, false⟩ : Account).held :=
  ⟨by decide,
   totals_invariant [⟨.Deposit, 1, 1, 10⟩, ⟨.Dispute, 1, 1, 0⟩] 1
     ⟨1, 0, 10, 10, false⟩ (by decide)⟩

/-! ### Dispatch helpers -/

lemma process_eq_deposit {e : TransactionEngine} {t : Transaction}
    (hg : lockedGuard e t.client = false) (htt : t.tx_type = .Deposit) :
    process_transaction e t = handle_deposit e t := by
  simp [process_transaction, hg, htt]

lemma process_eq_withdrawal {e : TransactionEngine} {t : Transaction}
    (hg : lockedGuard e t.client = false) (htt : t.tx_type = .Withdrawal) :
    process_transaction e t = handle_withdrawal e t := by
  simp [process_transaction, hg, htt]

lemma process_eq_dispute {e : TransactionEngine} {t : Transaction}
    (hg : lockedGuard e t.client = false) (htt : t.tx_type = .Dispute) :
    process_transaction e t = handle_dispute e t := by
  simp [process_transaction, hg, htt]

lemma process_eq_resolve {e : TransactionEngine} {t : Transaction}
    (hg : lockedGuard e t.client = false) (htt : t.tx_type = .Resolve) :
    process_transaction e t = handle_resolve e t := by
  simp [process_transaction, hg, htt]

lemma process_eq_chargeback {e : TransactionEngine} {t : Transaction}
    (hg : lockedGuard e t.client = false) (htt : t.tx_type = .Chargeback) :
    process_transaction e t = handle_chargeback e t := by
  simp [process_transaction, hg, htt]

/-! ### Business-rule failures -/

/-- The business-rule failures enumerated by the specification: insufficient
funds for a withdrawal, dispute on an unknown or already-disputed
transaction, resolve or chargeback on an unknown or non-disputed
transaction, or any event against a locked account. -/
def failsBusinessRule (e : TransactionEngine) (t : Transaction) : Prop :=
  lockedGuard e t.client = true ∨
  (t.tx_type = .Withdrawal ∧ ¬ (getOrCreate e t.client).available ≥ t.amount) ∨
  (t.tx_type = .Dispute ∧
    (e.transactions t.tx = none ∨
      ∃ d, e.transactions t.tx = some d ∧ d.disputed = true)) ∨
  ((t.tx_type = .Resolve ∨ t.tx_type = .Chargeback) ∧
    (e.transactions t.tx = none ∨
      ∃ d, e.transactions t.tx = some d ∧ d.disputed = false))

/-- `e'` differs from `e` at most by the lazy creation of a fresh zero
account for client `c₀`: the transactions store is unchanged, every stored
account is unchanged, and any change at all is the appearance of
`Account.new c₀` under key `c₀` where no account was stored. -/
def UnchangedExceptNew (e e' : TransactionEngine) (c₀ : Nat) : Prop :=
  e'.transactions = e.transactions ∧
  (∀ c a, e.accounts c = some a → e'.accounts c = some a) ∧
  (∀ c, e'.accounts c ≠ e.accounts c →
    c = c₀ ∧ e.accounts c = none ∧ e'.accounts c = some (Account.new c₀))

lemma unchangedExceptNew_refl (e : TransactionEngine) (c₀ : Nat) :
    UnchangedExceptNew e e c₀ :=
  ⟨rfl, fun _ _ h => h, fun _ hc => absurd rfl hc⟩

/-- The state produced by every failing handler branch: the looked-up
account written back unchanged, transactions untouched. -/
lemma failShape (e : TransactionEngine) (c₀ : Nat) :
    UnchangedExceptNew e
      ⟨insertAccount e.accounts c₀ (getOrCreate e c₀), e.transactions⟩ c₀ := by
  refine ⟨rfl, ?_, ?_⟩
  · intro c a hca
    by_cases hc : c = c₀
    · subst hc
      simp [insertAccount, getOrCreate, hca]
    · simp [insertAccount, hc, hca]
  · intro c hne
    by_cases hc : c = c₀
    · subst hc
      cases hacc : e.accounts c with
      | some a =>
        exact absurd (by simp [insertAccount, getOrCreate, hacc]) hne
      | none =>
        simp [insertAccount, getOrCreate, hacc]
    · exact absurd (by simp [insertAccount, hc]) hne

lemma handle_withdrawal_fail {e : TransactionEngine} {t : Transaction}
    (hw : ¬ (getOrCreate e t.client).available ≥ t.amount) :
    handle_withdrawal e t =
      ⟨insertAccount e.accounts t.client (getOrCreate e t.client),
        e.transactions⟩ := by
  unfold handle_withdrawal
  rw [if_neg hw]

lemma handle_dispute_fail {e : TransactionEngine} {t : Transaction}
    (h : e.transactions t.tx = none ∨
      ∃ d, e.transactions t.tx = some d ∧ d.disputed = true) :
    handle_dispute e t =
      ⟨insertAccount e.accounts t.client (getOrCreate e t.client),
        e.transactions⟩ := by
  unfold handle_dispute
  rcases h with hnone | ⟨d, hrec, hdisp⟩
  · split
    · rename_i d heq
      rw [hnone] at heq
      cases heq
    · rfl
  · split
    · rename_i d' heq
      rw [hrec] at heq
      injection heq with heq
      subst heq
      rw [if_neg]
      simp [hdisp]
    · rfl

lemma handle_resolve_fail {e : TransactionEngine} {t : Transaction}
    (h : e.transactions t.tx = none ∨
      ∃ d, e.transactions t.tx = some d ∧ d.disputed = false) :
    handle_resolve e t =
      ⟨insertAccount e.accounts t.client (getOrCreate e t.client),
        e.transactions⟩ := by
  unfold handle_resolve
  rcases h with hnone | ⟨d, hrec, hdisp⟩
  · split
    · rename_i d heq
      rw [hnone] at heq
      cases heq
    · rfl
  · split
    · rename_i d' heq
      rw [hrec] at heq
      injection heq with heq
      subst heq
      rw [if_neg]
      simp [hdisp]
    · rfl

lemma handle_chargeback_fail {e : TransactionEngine} {t : Transaction}
    (h : e.transactions t.tx = none ∨
      ∃ d, e.transactions t.tx = some d ∧ d.disputed = false) :
    handle_chargeback e t =
      ⟨insertAccount e.accounts t.client (getOrCreate e t.client),
        e.transactions⟩ := by
  unfold handle_chargeback
  rcases h with hnone | ⟨d, hrec, hdisp⟩
  · split
    · rename_i d heq
      rw [hnone] at heq
      cases heq
    · rfl
  · split
    · rename_i d' heq
      rw [hrec] at heq
      injection heq with heq
      subst heq
      rw [if_neg]
      simp [hdisp]
    · rfl

lemma process_fail_shape {e : TransactionEngine} {t : Transaction}
    (h : failsBusinessRule e t) :
    UnchangedExceptNew e (process_transaction e t) t.client := by
  by_cases hg : lockedGuard e t.client = true
  · unfold process_transaction
    rw [if_pos hg]
    exact unchangedExceptNew_refl e t.client
  · have hg' : lockedGuard e t.client = false := by
      simpa using hg
    rcases h with h | ⟨htt, hw⟩ | ⟨htt, hd⟩ | ⟨htt, hd⟩
    · exact absurd h hg
    · rw [process_eq_withdrawal hg' htt, handle_withdrawal_fail hw]
      exact failShape e t.client
    · rw [process_eq_dispute hg' htt, handle_dispute_fail hd]
      exact failShape e t.client
    · rcases htt with htt | htt
      · rw [process_eq_resolve hg' htt, handle_resolve_fail hd]
        exact failShape e t.client
      · rw [process_eq_chargeback hg' htt, handle_chargeback_fail hd]
        exact failShape e t.client

/-- Counterexample to C3 as stated: a Dispute on an unknown transaction id
(a business-rule failure) nevertheless changes the accounts map — the
handler's `entry(..).or_insert(..)` creates a fresh zero account for the
event's client before the precondition is checked. -/
theorem failed_dispute_creates_account :
    TransactionEngine.new.transactions 0 = none ∧
    TransactionEngine.new.accounts 1 = none ∧
    (process_transaction TransactionEngine.new ⟨.Dispute, 1, 0, 0⟩).accounts 1 =
      some (Account.new 1) := by
  decide

/-- C3 (amended): an event failing a business-rule precondition leaves the
transactions map unchanged and every stored account unchanged; the only
possible change to the accounts map is the lazy creation of the fresh zero
account for the event's client. Processing is a total function, so the run
continues with the next event. -/
theorem failed_event_state (e : TransactionEngine) (t : Transaction)
    (h : failsBusinessRule e t) :
    UnchangedExceptNew e (process_transaction e t) t.client :=
  process_fail_shape h

/-- Witness for C3 (amended): withdrawal with insufficient funds. -/
theorem failed_event_state_witness :
    failsBusinessRule (processAll TransactionEngine.new [⟨.Deposit, 1, 1, 10⟩])
      ⟨.Withdrawal, 1, 2, 11⟩ ∧
    UnchangedExceptNew (processAll TransactionEngine.new [⟨.Deposit, 1, 1, 10⟩])
      (process_transaction (processAll TransactionEngine.new [⟨.Deposit, 1, 1, 10⟩])
        ⟨.Withdrawal, 1, 2, 11⟩)
      (⟨.Withdrawal, 1, 2, 11⟩ : Transaction).client :=
  ⟨Or.inr (Or.inl ⟨by decide, by decide⟩),
   failed_event_state (processAll TransactionEngine.new [⟨.Deposit, 1, 1, 10⟩])
     ⟨.Withdrawal, 1, 2, 11⟩ (Or.inr (Or.inl ⟨by decide, by decide⟩))⟩

/-! ### Locked accounts are frozen -/

/-- C2: once the account stored for a client is locked, processing any
further event for that client leaves the whole engine unchanged (the event
is dropped by the dispatch guard before any kind-specific logic, for every
event kind); in particular that client's `available`, `held`, `total` and
`locked` fields are unchanged. -/
theorem locked_account_frozen (e : TransactionEngine) (t : Transaction)
    (a : Account) (hacc : e.accounts t.client = some a)
    (hlock : a.locked = true) :
    process_transaction e t = e ∧
      (process_transaction e t).accounts t.client = some a := by
  have hg : lockedGuard e t.client = true := lockedGuard_eq_true hacc hlock
  refine ⟨?_, ?_⟩ <;> simp [process_transaction, hg, hacc]

/-- A concrete engine whose account 2 is locked: deposit then dispute then
charge back transaction 4. -/
def lockedDemo : TransactionEngine :=
  processAll TransactionEngine.new
    [⟨.Deposit, 2, 4, 10⟩, ⟨.Dispute, 2, 4, 0⟩, ⟨.Chargeback, 2, 4, 0⟩]

/-- Witness for C2: a deposit for the locked client 2 is dropped whole. -/
theorem locked_account_frozen_witness :
    lockedDemo.accounts 2 = some ⟨2, 0, 0, 0, true⟩ ∧
    (⟨2, 0, 0, 0, true⟩ : Account).locked = true ∧
    (process_transaction lockedDemo ⟨.Deposit, 2, 9, 5⟩ = lockedDemo ∧
      (process_transaction lockedDemo ⟨.Deposit, 2, 9, 5⟩).accounts 2 =
        some ⟨2, 0, 0, 0, true⟩) :=
  ⟨by decide, by decide,
   locked_account_frozen lockedDemo ⟨.Deposit, 2, 9, 5⟩ ⟨2, 0, 0, 0, true⟩
     (by decide) (by decide)⟩

/-! ### Dispute, resolve and chargeback only touch the event's own account -/

/-- C9: for a Dispute, Resolve or Chargeback event, the only account that can
change is the one keyed by the event's `client`; every account stored under
any other client identifier is unchanged, even when the referenced record was
created by a deposit or withdrawal of a different client. -/
theorem dispute_resolve_chargeback_frame (e : TransactionEngine)
    (t : Transaction)
    (hk : t.tx_type = .Dispute ∨ t.tx_type = .Resolve ∨ t.tx_type = .Chargeback)
    (c : Nat) (hc : c ≠ t.client) :
    (process_transaction e t).accounts c = e.accounts c := by
  rcases hk with hk | hk | hk <;> exact accounts_frame hc

/-- Witness for C9: client 2 disputing client 1's transaction 1 leaves
client 1's account untouched. -/
theorem dispute_resolve_chargeback_frame_witness :
    ((⟨.Dispute, 2, 1, 0⟩ : Transaction).tx_type = .Dispute ∨
      (⟨.Dispute, 2, 1, 0⟩ : Transaction).tx_type = .Resolve ∨
      (⟨.Dispute, 2, 1, 0⟩ : Transaction).tx_type = .Chargeback) ∧
    (1 : Nat) ≠ (⟨.Dispute, 2, 1, 0⟩ : Transaction).client ∧
    (process_transaction (processAll TransactionEngine.new [⟨.Deposit, 1, 1, 10⟩])
        ⟨.Dispute, 2, 1, 0⟩).accounts 1 =
      (processAll TransactionEngine.new [⟨.Deposit, 1, 1, 10⟩]).accounts 1 :=
  ⟨Or.inl (by decide), by decide,
   dispute_resolve_chargeback_frame
     (processAll TransactionEngine.new [⟨.Deposit, 1, 1, 10⟩])
     ⟨.Dispute, 2, 1, 0⟩ (Or.inl (by decide)) 1 (by decide)⟩

/-! ### Scenario E -/

/-- The event sequence of Scenario E: deposit 10, withdraw 5, dispute the
withdrawal, charge it back (client 2, transactions 4 and 5). -/
def scenarioE : List Transaction :=
  [⟨.Deposit, 2, 4, 10⟩, ⟨.Withdrawal, 2, 5, 5⟩,
   ⟨.Dispute, 2, 5, 0⟩, ⟨.Chargeback, 2, 5, 0⟩]

/-- Counterexample to C4 as stated: after Scenario E account 2 does not hold
available=5, held=0, total=5, locked=true. The dispute moves the withdrawn
amount from available to held (5 → 0) and the chargeback then subtracts it
from held and from total, so the true final state is all-zero balances. -/
theorem scenarioE_claimed_balances_false :
    (processAll TransactionEngine.new scenarioE).accounts 2 ≠
      some ⟨2, 5, 0, 5, true⟩ := by
  decide

/-- C4 (amended): Scenario E leaves account 2 with available=0, held=0,
total=0, locked=true, and the subsequent Deposit(2,6,10) changes no balance
and creates no record for transaction id 6. This matches the engine's own
unit test, where a chargeback always subtracts the record amount from both
held and total. -/
theorem scenarioE_actual :
    (processAll TransactionEngine.new scenarioE).accounts 2 =
      some ⟨2, 0, 0, 0, true⟩ ∧
    (process_transaction (processAll TransactionEngine.new scenarioE)
        ⟨.Deposit, 2, 6, 10⟩).accounts 2 = some ⟨2, 0, 0, 0, true⟩ ∧
    (process_transaction (processAll TransactionEngine.new scenarioE)
        ⟨.Deposit, 2, 6, 10⟩).transactions 6 = none := by
  decide

/-! ### Disputes on unknown or foreign transaction records -/

/-- Two clients, one deposit each; transaction record 1 was created by
client 1. -/
def crossDemo : TransactionEngine :=
  processAll TransactionEngine.new
    [⟨.Deposit, 1, 1, 10⟩, ⟨.Deposit, 2, 2, 10⟩]

/-- Counterexample to C5 as stated: transaction 1 was created by a deposit
of client 1, yet the event Dispute(client=2, tx=1) changes client 2's
balances — the handler looks the record up by transaction id alone and
applies it against the event's own client, moving 10 from available to
held. -/
theorem cross_client_dispute_moves_funds :
    crossDemo.transactions 1 = some ⟨10, false⟩ ∧
    crossDemo.accounts 2 = some ⟨2, 10, 0, 10, false⟩ ∧
    (process_transaction crossDemo ⟨.Dispute, 2, 1, 0⟩).accounts 2 =
      some ⟨2, 0, 10, 10, false⟩ := by
  decide

/-- C5 (amended): processing a Dispute never crashes (`process_transaction`
is a total function). If the referenced record does not exist, every stored
account keeps its balances and the transactions store is unchanged. In every
case only the account keyed by the event's `client` can change; when the
record was created by a different client the engine still applies the
dispute against the event's own account, so all other accounts are
unchanged. -/
theorem dispute_unknown_or_foreign (e : TransactionEngine) (t : Transaction)
    (htt : t.tx_type = .Dispute) :
    (e.transactions t.tx = none →
      (∀ c a, e.accounts c = some a →
        (process_transaction e t).accounts c = some a) ∧
      (process_transaction e t).transactions = e.transactions) ∧
    (∀ c, c ≠ t.client → (process_transaction e t).accounts c = e.accounts c) := by
  constructor
  · intro hnone
    have h := process_fail_shape
      (Or.inr (Or.inr (Or.inl ⟨htt, Or.inl hnone⟩)) :
        failsBusinessRule e t)
    exact ⟨h.2.1, h.1⟩
  · intro c hc
    exact accounts_frame hc

/-- Witness for C5 (amended): a dispute on the unknown transaction 99. -/
theorem dispute_unknown_or_foreign_witness :
    (⟨.Dispute, 1, 99, 0⟩ : Transaction).tx_type = .Dispute ∧
    ((crossDemo.transactions 99 = none →
      (∀ c a, crossDemo.accounts c = some a →
        (process_transaction crossDemo ⟨.Dispute, 1, 99, 0⟩).accounts c = some a) ∧
      (process_transaction crossDemo ⟨.Dispute, 1, 99, 0⟩).transactions =
        crossDemo.transactions) ∧
    (∀ c, c ≠ (⟨.Dispute, 1, 99, 0⟩ : Transaction).client →
      (process_transaction crossDemo ⟨.Dispute, 1, 99, 0⟩).accounts c =
        crossDemo.accounts c)) :=
  ⟨by decide,
   dispute_unknown_or_foreign crossDemo ⟨.Dispute, 1, 99, 0⟩ (by decide)⟩

/-! ### Withdrawal rules -/

/-- C6: for a Withdrawal against an existing unlocked account: when
`available ≥ amount`, `available` and `total` each decrease by exactly the
amount and the record `⟨amount, disputed := false⟩` is stored under the
event's transaction id, overwriting any record already there, with every
other stored record untouched; otherwise the event is dropped — the account
is unchanged and no record is created. In particular a withdrawal of exactly
`available` succeeds and leaves `available = 0`, and a withdrawal of
`available + 1` (one unit is 0.0001 currency) is dropped. -/
theorem withdrawal_rules (e : TransactionEngine) (t : Transaction)
    (a : Account) (htt : t.tx_type = .Withdrawal)
    (hacc : e.accounts t.client = some a) (hlock : a.locked = false) :
    (a.available ≥ t.amount →
      (process_transaction e t).accounts t.client =
        some { a with available := a.available - t.amount,
                      total := a.total - t.amount } ∧
      (process_transaction e t).transactions t.tx = some ⟨t.amount, false⟩ ∧
      ∀ x, x ≠ t.tx →
        (process_transaction e t).transactions x = e.transactions x) ∧
    (¬ a.available ≥ t.amount →
      (process_transaction e t).accounts t.client = some a ∧
      (process_transaction e t).transactions = e.transactions) ∧
    (t.amount = a.available →
      (process_transaction e t).accounts t.client =
        some { a with available := 0, total := a.total - t.amount }) ∧
    (t.amount = a.available + 1 →
      (process_transaction e t).accounts t.client = some a ∧
      (process_transaction e t).transactions = e.transactions) := by
  have hg : lockedGuard e t.client = false := by
    unfold lockedGuard
    rw [hacc]
    exact hlock
  have hga : getOrCreate e t.client = a := by
    simp [getOrCreate, hacc]
  rw [process_eq_withdrawal hg htt]
  have hsucc : ∀ hge : a.available ≥ t.amount,
      (handle_withdrawal e t).accounts t.client =
        some { a with available := a.available - t.amount,
                      total := a.total - t.amount } ∧
      (handle_withdrawal e t).transactions t.tx = some ⟨t.amount, false⟩ ∧
      ∀ x, x ≠ t.tx →
        (handle_withdrawal e t).transactions x = e.transactions x := by
    intro hge
    unfold handle_withdrawal
    rw [hga, if_pos hge]
    refine ⟨by simp [insertAccount], by simp [insertRecord], ?_⟩
    intro x hx
    simp [insertRecord, hx]
  have hfail : ∀ _ : ¬ a.available ≥ t.amount,
      (handle_withdrawal e t).accounts t.client = some a ∧
      (handle_withdrawal e t).transactions = e.transactions := by
    intro hlt
    rw [handle_withdrawal_fail (by rw [hga]; exact hlt)]
    exact ⟨by simp [insertAccount, hga], rfl⟩
  refine ⟨hsucc, hfail, ?_, ?_⟩
  · intro heq
    have h := (hsucc (by omega)).1
    rw [h]
    simp [heq]
  · intro heq
    exact hfail (by omega)

/-- Witness for C6: withdrawing exactly the available 10 from client 1. -/
theorem withdrawal_rules_witness :
    (⟨.Withdrawal, 1, 2, 10⟩ : Transaction).tx_type = .Withdrawal ∧
    (processAll TransactionEngine.new [⟨.Deposit, 1, 1, 10⟩]).accounts 1 =
      some ⟨1, 10, 0, 10, false⟩ ∧
    (⟨1, 10, 0, 10, false⟩ : Account).locked = false ∧
    (((⟨1, 10, 0, 10, false⟩ : Account).available ≥
        (⟨.Withdrawal, 1, 2, 10⟩ : Transaction).amount →
      (process_transaction (processAll TransactionEngine.new [⟨.Deposit, 1, 1, 10⟩])
          ⟨.Withdrawal, 1, 2, 10⟩).accounts 1 = some ⟨1, 0, 0, 0, false⟩ ∧
      (process_transaction (processAll TransactionEngine.new [⟨.Deposit, 1, 1, 10⟩])
          ⟨.Withdrawal, 1, 2, 10⟩).transactions 2 = some ⟨10, false⟩ ∧
      ∀ x, x ≠ 2 →
        (process_transaction (processAll TransactionEngine.new [⟨.Deposit, 1, 1, 10⟩])
            ⟨.Withdrawal, 1, 2, 10⟩).transactions x =
          (processAll TransactionEngine.new [⟨.Deposit, 1, 1, 10⟩]).transactions x) ∧
    (¬ (⟨1, 10, 0, 10, false⟩ : Account).available ≥
        (⟨.Withdrawal, 1, 2, 10⟩ : Transaction).amount →
      (process_transaction (processAll TransactionEngine.new [⟨.Deposit, 1, 1, 10⟩])
          ⟨.Withdrawal, 1, 2, 10⟩).accounts 1 = some ⟨1, 10, 0, 10, false⟩ ∧
      (process_transaction (processAll TransactionEngine.new [⟨.Deposit, 1, 1, 10⟩])
          ⟨.Withdrawal, 1, 2, 10⟩).transactions =
        (processAll TransactionEngine.new [⟨.Deposit, 1, 1, 10⟩]).transactions) ∧
    ((⟨.Withdrawal, 1, 2, 10⟩ : Transaction).amount =
        (⟨1, 10, 0, 10, false⟩ : Account).available →
      (process_transaction (processAll TransactionEngine.new [⟨.Deposit, 1, 1, 10⟩])
          ⟨.Withdrawal, 1, 2, 10⟩).accounts 1 = some ⟨1, 0, 0, 0, false⟩) ∧
    ((⟨.Withdrawal, 1, 2, 10⟩ : Transaction).amount =
        (⟨1, 10, 0, 10, false⟩ : Account).available + 1 →
      (process_transaction (processAll TransactionEngine.new [⟨.Deposit, 1, 1, 10⟩])
          ⟨.Withdrawal, 1, 2, 10⟩).accounts 1 = some ⟨1, 10, 0, 10, false⟩ ∧
      (process_transaction (processAll TransactionEngine.new [⟨.Deposit, 1, 1, 10⟩])
          ⟨.Withdrawal, 1, 2, 10⟩).transactions =
        (processAll TransactionEngine.new [⟨.Deposit, 1, 1, 10⟩]).transactions)) :=
  ⟨by decide, by decide, by decide,
   withdrawal_rules (processAll TransactionEngine.new [⟨.Deposit, 1, 1, 10⟩])
     ⟨.Withdrawal, 1, 2, 10⟩ ⟨1, 10, 0, 10, false⟩
     (by decide) (by decide) (by decide)⟩

/-! ### Disputing an already-disputed transaction -/

lemma engine_ext {e e' : TransactionEngine} (h1 : e.accounts = e'.accounts)
    (h2 : e.transactions = e'.transactions) : e = e' := by
  cases e
  cases e'
  simp only [TransactionEngine.mk.injEq]
  exact ⟨by simpa using h1, by simpa using h2⟩

lemma getOrCreate_locked_false {e : TransactionEngine} {c : Nat}
    (hg : lockedGuard e c = false) : (getOrCreate e c).locked = false := by
  unfold getOrCreate
  unfold lockedGuard at hg
  cases hacc : e.accounts c with
  | some a =>
    rw [hacc] at hg
    exact hg
  | none => simp [Account.new]

/-- A run that leaves transaction 1 disputed: deposit 10 as client 1, then
dispute it. -/
def disputedDemo : TransactionEngine :=
  processAll TransactionEngine.new
    [⟨.Deposit, 1, 1, 10⟩, ⟨.Dispute, 1, 1, 0⟩]

/-- Counterexample to C7 as stated: a Dispute referencing an
already-disputed record is not always a strict no-op — when the event names
a client with no stored account, `entry(..).or_insert(..)` creates a fresh
zero account before the `disputed` check fails, so the state after differs
from the state before. -/
theorem dispute_on_disputed_changes_state :
    disputedDemo.transactions 1 = some ⟨10, true⟩ ∧
    disputedDemo.accounts 2 = none ∧
    (process_transaction disputedDemo ⟨.Dispute, 2, 1, 0⟩).accounts 2 =
      some (Account.new 2) := by
  decide

/-- C7 (amended): a Dispute on an already-disputed record changes no balance
and no record — the transactions store is unchanged, every stored account is
unchanged, and the only possible change is the lazy creation of the zero
account for the event's client (`UnchangedExceptNew`); when an account
already exists for the event's client the engine state is strictly identical
before and after, and in every case processing the Dispute twice in a row
equals processing it once. -/
theorem dispute_on_disputed_idempotent (e : TransactionEngine)
    (t : Transaction) (d : TransactionDetails) (htt : t.tx_type = .Dispute)
    (hrec : e.transactions t.tx = some d) (hd : d.disputed = true) :
    UnchangedExceptNew e (process_transaction e t) t.client ∧
    (∀ a, e.accounts t.client = some a → process_transaction e t = e) ∧
    process_transaction (process_transaction e t) t =
      process_transaction e t := by
  refine ⟨process_fail_shape
    (Or.inr (Or.inr (Or.inl ⟨htt, Or.inr ⟨d, hrec, hd⟩⟩))), ?_, ?_⟩
  · intro a ha
    by_cases hl : a.locked = true
    · simp [process_transaction, lockedGuard_eq_true ha hl]
    · have hl' : a.locked = false := by
        revert hl
        cases a.locked <;> simp
      have hg : lockedGuard e t.client = false := by
        unfold lockedGuard
        rw [ha]
        exact hl'
      rw [process_eq_dispute hg htt, handle_dispute_fail (Or.inr ⟨d, hrec, hd⟩)]
      have hga : getOrCreate e t.client = a := by
        simp [getOrCreate, ha]
      apply engine_ext
      · funext c
        by_cases hc : c = t.client
        · subst hc
          simp [insertAccount, hga, ha]
        · simp [insertAccount, hc]
      · rfl
  · by_cases hg : lockedGuard e t.client = true
    · have h0 : process_transaction e t = e := by
        simp [process_transaction, hg]
      rw [h0]
      exact h0
    · have hg' : lockedGuard e t.client = false := by
        simpa using hg
      have h1 : process_transaction e t =
          ⟨insertAccount e.accounts t.client (getOrCreate e t.client),
            e.transactions⟩ := by
        rw [process_eq_dispute hg' htt, handle_dispute_fail (Or.inr ⟨d, hrec, hd⟩)]
      have he'acc : (process_transaction e t).accounts t.client =
          some (getOrCreate e t.client) := by
        rw [h1]
        simp [insertAccount]
      have he'g : lockedGuard (process_transaction e t) t.client = false := by
        unfold lockedGuard
        rw [he'acc]
        exact getOrCreate_locked_false hg'
      have he'rec : (process_transaction e t).transactions t.tx = some d := by
        rw [h1]
        exact hrec
      rw [process_eq_dispute he'g htt, handle_dispute_fail (Or.inr ⟨d, he'rec, hd⟩)]
      apply engine_ext
      · have hgc : getOrCreate (process_transaction e t) t.client =
            getOrCreate e t.client := by
          unfold getOrCreate
          rw [he'acc]
          rfl
        rw [hgc, h1]
        funext c
        by_cases hc : c = t.client <;> simp [insertAccount, hc]
      · rfl

/-- Witness for C7 (amended): re-disputing the disputed transaction 1 by its
own client 1. -/
theorem dispute_on_disputed_idempotent_witness :
    (⟨.Dispute, 1, 1, 0⟩ : Transaction).tx_type = .Dispute ∧
    disputedDemo.transactions 1 = some ⟨10, true⟩ ∧
    (⟨(10 : ℤ), true⟩ : TransactionDetails).disputed = true ∧
    (UnchangedExceptNew disputedDemo
        (process_transaction disputedDemo ⟨.Dispute, 1, 1, 0⟩) 1 ∧
      (∀ a, disputedDemo.accounts 1 = some a →
        process_transaction disputedDemo ⟨.Dispute, 1, 1, 0⟩ = disputedDemo) ∧
      process_transaction (process_transaction disputedDemo ⟨.Dispute, 1, 1, 0⟩)
          ⟨.Dispute, 1, 1, 0⟩ =
        process_transaction disputedDemo ⟨.Dispute, 1, 1, 0⟩) :=
  ⟨by decide, by decide, by decide,
   dispute_on_disputed_idempotent disputedDemo ⟨.Dispute, 1, 1, 0⟩ ⟨10, true⟩
     (by decide) (by decide) (by decide)⟩

lemma transactions_frame {e : TransactionEngine} {t : Transaction} {x : Nat}
    (hx : x ≠ t.tx) :
    (process_transaction e t).transactions x = e.transactions x := by
  unfold process_transaction
  split
  · rfl
  · split <;>
    · simp only [handle_deposit, handle_withdrawal, handle_dispute, handle_resolve,
        handle_chargeback]
      repeat' split
      all_goals simp [insertRecord, removeRecord, hx]

/-- Nonnegativity invariant: every stored account has nonnegative available
and held, and every stored record has a nonnegative amount. -/
def NonnegInv (e : TransactionEngine) : Prop :=
  (∀ c a, e.accounts c = some a → 0 ≤ a.available ∧ 0 ≤ a.held) ∧
  (∀ x d, e.transactions x = some d → 0 ≤ d.amount)

lemma nonneg_step {e : TransactionEngine} {t : Transaction} (h : NonnegInv e)
    (ht : 0 ≤ t.amount) : NonnegInv (process_transaction e t) := by
  obtain ⟨ha, hr⟩ := h
  have hga1 : 0 ≤ (getOrCreate e t.client).available := by
    unfold getOrCreate
    cases hc : e.accounts t.client with
    | some a => exact (ha _ _ hc).1
    | none => simp [Account.new]
  have hga2 : 0 ≤ (getOrCreate e t.client).held := by
    unfold getOrCreate
    cases hc : e.accounts t.client with
    | some a => exact (ha _ _ hc).2
    | none => simp [Account.new]
  constructor
  · intro c a hca
    unfold process_transaction at hca
    split at hca
    · exact ha _ _ hca
    · rcases hrec : e.transactions t.tx with _ | d
      case none =>
        split at hca <;>
        · simp only [handle_deposit, handle_withdrawal, handle_dispute, handle_resolve,
            handle_chargeback, hrec] at hca
          repeat' split at hca
          all_goals first
            | exact ha _ _ hca
            | · simp only [insertAccount] at hca
                split at hca
                · injection hca with hca
                  subst hca
                  refine ⟨?_, ?_⟩ <;> (try dsimp only) <;>
                    (try casesm* _ ∧ _) <;> omega
                · exact ha _ _ hca
      case some =>
        have hdam : 0 ≤ d.amount := hr _ _ hrec
        split at hca <;>
        · simp only [handle_deposit, handle_withdrawal, handle_dispute, handle_resolve,
            handle_chargeback, hrec] at hca
          repeat' split at hca
          all_goals first
            | exact ha _ _ hca
            | · simp only [insertAccount] at hca
                split at hca
                · injection hca with hca
                  subst hca
                  refine ⟨?_, ?_⟩ <;> (try dsimp only) <;>
                    (try casesm* _ ∧ _) <;> omega
                · exact ha _ _ hca
  · intro x d' hxd
    unfold process_transaction at hxd
    split at hxd
    · exact hr _ _ hxd
    · rcases hrec : e.transactions t.tx with _ | d
      case none =>
        split at hxd <;>
        · simp only [handle_deposit, handle_withdrawal, handle_dispute, handle_resolve,
            handle_chargeback, hrec] at hxd
          repeat' split at hxd
          all_goals first
            | exact hr _ _ hxd
            | · simp only [insertRecord, removeRecord] at hxd
                split at hxd
                · first
                  | exact Option.noConfusion hxd
                  | (injection hxd with hxd; subst hxd; dsimp only; omega)
                · exact hr _ _ hxd
      case some =>
        have hdam : 0 ≤ d.amount := hr _ _ hrec
        split at hxd <;>
        · simp only [handle_deposit, handle_withdrawal, handle_dispute, handle_resolve,
            handle_chargeback, hrec] at hxd
          repeat' split at hxd
          all_goals first
            | exact hr _ _ hxd
            | · simp only [insertRecord, removeRecord] at hxd
                split at hxd
                · first
                  | exact Option.noConfusion hxd
                  | (injection hxd with hxd; subst hxd; dsimp only; omega)
                · exact hr _ _ hxd

/-! ### Transaction-id reuse overwrites the stored record -/

/-- C8: when a Deposit, or a Withdrawal that passes its funds check, is
processed for an unlocked client and carries a transaction id that already
has a stored record, the new record `⟨amount, disputed := false⟩` silently
replaces the old one: the lookup at that id afterwards returns exactly the
new record (the store holds one record per id by construction), and every
other id's record is untouched. -/
theorem record_overwrite (e : TransactionEngine) (t : Transaction)
    (d₀ : TransactionDetails) (hrec : e.transactions t.tx = some d₀)
    (hg : lockedGuard e t.client = false) :
    (t.tx_type = .Deposit →
      (process_transaction e t).transactions t.tx = some ⟨t.amount, false⟩) ∧
    (t.tx_type = .Withdrawal →
      (getOrCreate e t.client).available ≥ t.amount →
      (process_transaction e t).transactions t.tx = some ⟨t.amount, false⟩) ∧
    (∀ x, x ≠ t.tx →
      (process_transaction e t).transactions x = e.transactions x) := by
  refine ⟨?_, ?_, ?_⟩
  · intro htt
    rw [process_eq_deposit hg htt]
    simp [handle_deposit, insertRecord]
  · intro htt hge
    rw [process_eq_withdrawal hg htt]
    unfold handle_withdrawal
    rw [if_pos hge]
    simp [insertRecord]
  · intro x hx
    exact transactions_frame hx

/-- Witness for C8: a second deposit reusing transaction id 1 with amount 7
replaces the stored record `⟨10, false⟩` by `⟨7, false⟩`. -/
theorem record_overwrite_witness :
    (processAll TransactionEngine.new [⟨.Deposit, 1, 1, 10⟩]).transactions 1 =
      some ⟨10, false⟩ ∧
    lockedGuard (processAll TransactionEngine.new [⟨.Deposit, 1, 1, 10⟩]) 1 = false ∧
    (((⟨.Deposit, 1, 1, 7⟩ : Transaction).tx_type = .Deposit →
      (process_transaction (processAll TransactionEngine.new [⟨.Deposit, 1, 1, 10⟩])
          ⟨.Deposit, 1, 1, 7⟩).transactions 1 = some ⟨7, false⟩) ∧
    ((⟨.Deposit, 1, 1, 7⟩ : Transaction).tx_type = .Withdrawal →
      (getOrCreate (processAll TransactionEngine.new [⟨.Deposit, 1, 1, 10⟩]) 1).available ≥
        (⟨.Deposit, 1, 1, 7⟩ : Transaction).amount →
      (process_transaction (processAll TransactionEngine.new [⟨.Deposit, 1, 1, 10⟩])
          ⟨.Deposit, 1, 1, 7⟩).transactions 1 = some ⟨7, false⟩) ∧
    (∀ x, x ≠ 1 →
      (process_transaction (processAll TransactionEngine.new [⟨.Deposit, 1, 1, 10⟩])
          ⟨.Deposit, 1, 1, 7⟩).transactions x =
        (processAll TransactionEngine.new [⟨.Deposit, 1, 1, 10⟩]).transactions x)) :=
  ⟨by decide, by decide,
   record_overwrite (processAll TransactionEngine.new [⟨.Deposit, 1, 1, 10⟩])
     ⟨.Deposit, 1, 1, 7⟩ ⟨10, false⟩ (by decide) (by decide)⟩

lemma nonneg_processAll {e : TransactionEngine} (h : NonnegInv e)
    {ts : List Transaction} (hts : ∀ t ∈ ts, 0 ≤ t.amount) :
    NonnegInv (processAll e ts) := by
  induction ts generalizing e with
  | nil => exact h
  | cons t ts ih =>
    exact ih (nonneg_step h (hts t (by simp))) fun t' ht' => hts t' (by simp [ht'])

lemma nonneg_new : NonnegInv TransactionEngine.new :=
  ⟨fun c a h => by simp [TransactionEngine.new] at h,
   fun x d h => by simp [TransactionEngine.new] at h⟩

/-- C10: processing any sequence of events whose amounts are all
nonnegative from the initial empty engine keeps `available ≥ 0` and
`held ≥ 0` for every account: the precondition checks (`available ≥ amount`
for withdrawals and disputes, `held ≥ amount` for resolves and chargebacks)
are sufficient. Since this holds for an arbitrary such sequence, it holds
after every processed event. -/
theorem nonneg_invariant (ts : List Transaction)
    (hts : ∀ t ∈ ts, 0 ≤ t.amount) (c : Nat) (a : Account)
    (h : (processAll TransactionEngine.new ts).accounts c = some a) :
    0 ≤ a.available ∧ 0 ≤ a.held :=
  (nonneg_processAll nonneg_new hts).1 c a h

/-- Witness for C10: deposit 10 then withdraw 4. -/
theorem nonneg_invariant_witness :
    (∀ t ∈ [(⟨.Deposit, 1, 1, 10⟩ : Transaction), ⟨.Withdrawal, 1, 2, 4⟩],
      0 ≤ t.amount) ∧
    (processAll TransactionEngine.new
        [⟨.Deposit, 1, 1, 10⟩, ⟨.Withdrawal, 1, 2, 4⟩]).accounts 1 =
      some ⟨1, 6, 0, 6, false⟩ ∧
    (0 ≤ (⟨1, 6, 0, 6, false⟩ : Account).available ∧
      0 ≤ (⟨1, 6, 0, 6, false⟩ : Account).held) :=
  ⟨by decide, by decide,
   nonneg_invariant [⟨.Deposit, 1, 1, 10⟩, ⟨.Withdrawal, 1, 2, 4⟩]
     (by decide) 1 ⟨1, 6, 0, 6, false⟩ (by decide)⟩

end AccountManager
